import Mathlib

/- Verification model of the TCA coding agent (src/Agent/agent.py).

   Python strings are modelled as Lean String / List Char (sequences of
   Unicode scalar values).  External dependencies are modelled explicitly:
   the json standard library (jsonLoads, dumpVal), the json_repair library
   (repair_json_model) and Python's builtin hash (hashModel); each model's
   doc comment states its boundary.  Tools are modelled as pure state
   transformers over an association-list file system; uncaught Python
   exceptions are modelled with Except PyErr. -/

namespace TCA

/-- JSON values as produced by Python json.loads: objects are
insertion-ordered dictionaries with string keys (duplicate keys resolved
last-value-wins at parse time, position of the first occurrence kept),
numbers restricted to integers (floating-point literals are outside the
modelled subset; no claim exercises them). -/
inductive JValue where
  | null : JValue
  | bool (b : Bool) : JValue
  | num (n : Int) : JValue
  | str (s : String) : JValue
  | arr (elems : List JValue) : JValue
  | obj (fields : List (String × JValue)) : JValue

/-- Lookup in an association list (Python dict access by key). -/
def assocGet {α : Type} : List (String × α) → String → Option α
  | [], _ => none
  | (k, v) :: rest, key => if k = key then some v else assocGet rest key

/-- Update/insert in an association list, mirroring Python dict assignment:
an existing key keeps its position and receives the new value, a new key is
appended at the end. -/
def assocSet {α : Type} : List (String × α) → String → α → List (String × α)
  | [], key, v => [(key, v)]
  | (k, w) :: rest, key, v =>
    if k = key then (k, v) :: rest else (k, w) :: assocSet rest key v

/-- Whitespace accepted between JSON tokens by Python json.loads. -/
def jsonWs (c : Char) : Bool := c = ' ' || c = '\t' || c = '\n' || c = '\r'

def skipWs (cs : List Char) : List Char := cs.dropWhile jsonWs

def hexVal (c : Char) : Option Nat :=
  if '0' ≤ c ∧ c ≤ '9' then some (c.toNat - 48)
  else if 'a' ≤ c ∧ c ≤ 'f' then some (c.toNat - 97 + 10)
  else if 'A' ≤ c ∧ c ≤ 'F' then some (c.toNat - 65 + 10)
  else none

/-- Body of a JSON string after the opening quote: returns the decoded
characters and the remaining input after the closing quote.  Matches Python
json.loads in strict mode: raw control characters are rejected; escapes are
the standard JSON ones plus \uXXXX (code points in the surrogate range are
outside the modelled subset). -/
def parseStringBody : List Char → Option (List Char × List Char)
  | [] => none
  | '"' :: rest => some ([], rest)
  | '\\' :: rest =>
    match rest with
    | '"' :: r => (parseStringBody r).map (fun p => ('"' :: p.1, p.2))
    | '\\' :: r => (parseStringBody r).map (fun p => ('\\' :: p.1, p.2))
    | '/' :: r => (parseStringBody r).map (fun p => ('/' :: p.1, p.2))
    | 'b' :: r => (parseStringBody r).map (fun p => ('\x08' :: p.1, p.2))
    | 'f' :: r => (parseStringBody r).map (fun p => ('\x0c' :: p.1, p.2))
    | 'n' :: r => (parseStringBody r).map (fun p => ('\n' :: p.1, p.2))
    | 'r' :: r => (parseStringBody r).map (fun p => ('\x0d' :: p.1, p.2))
    | 't' :: r => (parseStringBody r).map (fun p => ('\t' :: p.1, p.2))
    | 'u' :: h1 :: h2 :: h3 :: h4 :: r =>
      match hexVal h1, hexVal h2, hexVal h3, hexVal h4 with
      | some a, some b, some c, some d =>
        let n := ((a * 16 + b) * 16 + c) * 16 + d
        if n < 0xd800 then (parseStringBody r).map (fun p => (Char.ofNat n :: p.1, p.2))
        else if 0xdfff < n then (parseStringBody r).map (fun p => (Char.ofNat n :: p.1, p.2))
        else none
      | _, _, _, _ => none
    | _ => none
  | c :: rest =>
    if c.toNat < 32 then none
    else (parseStringBody rest).map (fun p => (c :: p.1, p.2))

def digitsVal (ds : List Char) : Nat := ds.foldl (fun a c => a * 10 + (c.toNat - 48)) 0

/-- JSON integer literal per Python json.loads: optional minus sign, no
leading zeros (except "0" itself); a following '.', 'e' or 'E' (a float
literal) is outside the modelled subset and rejected. -/
def parseNumber (cs : List Char) : Option (JValue × List Char) :=
  let pr := match cs with | '-' :: r => (true, r) | _ => (false, cs)
  let ds := pr.2.takeWhile Char.isDigit
  let rest := pr.2.drop ds.length
  if ds.isEmpty then none
  else if 1 < ds.length ∧ ds.headD ' ' = '0' then none
  else
    match rest with
    | '.' :: _ => none
    | 'e' :: _ => none
    | 'E' :: _ => none
    | _ =>
      let v : Int := Int.ofNat (digitsVal ds)
      some (JValue.num (if pr.1 then -v else v), rest)

/-- Python-dict construction from parsed members: later duplicate keys
overwrite the value at the first occurrence's position. -/
def dedupFields (kvs : List (String × JValue)) : List (String × JValue) :=
  kvs.foldl (fun acc kv => assocSet acc kv.1 kv.2) []

mutual

/-- One JSON value, modelling the Python json.loads grammar on the integer
subset; fuel bounds recursion depth and jsonLoads always supplies enough. -/
def parseVal : Nat → List Char → Option (JValue × List Char)
  | 0, _ => none
  | fuel + 1, cs =>
    match skipWs cs with
    | '"' :: rest => (parseStringBody rest).map (fun p => (JValue.str (String.mk p.1), p.2))
    | '\x7b' :: rest => parseObjRest fuel rest
    | '[' :: rest => parseArrRest fuel rest
    | 't' :: 'r' :: 'u' :: 'e' :: rest => some (JValue.bool true, rest)
    | 'f' :: 'a' :: 'l' :: 's' :: 'e' :: rest => some (JValue.bool false, rest)
    | 'n' :: 'u' :: 'l' :: 'l' :: rest => some (JValue.null, rest)
    | other => parseNumber other

def parseObjRest : Nat → List Char → Option (JValue × List Char)
  | 0, _ => none
  | fuel + 1, cs =>
    match skipWs cs with
    | '\x7d' :: r => some (JValue.obj [], r)
    | other => (parseMembers fuel other).map (fun p => (JValue.obj (dedupFields p.1), p.2))

def parseMembers : Nat → List Char → Option (List (String × JValue) × List Char)
  | 0, _ => none
  | fuel + 1, cs =>
    match parseMember fuel cs with
    | none => none
    | some (kv, r) =>
      match skipWs r with
      | ',' :: r2 => (parseMembers fuel r2).map (fun p => (kv :: p.1, p.2))
      | '\x7d' :: r2 => some ([kv], r2)
      | _ => none

def parseMember : Nat → List Char → Option ((String × JValue) × List Char)
  | 0, _ => none
  | fuel + 1, cs =>
    match skipWs cs with
    | '"' :: r =>
      match parseStringBody r with
      | none => none
      | some (k, r1) =>
        match skipWs r1 with
        | ':' :: r2 => (parseVal fuel r2).map (fun p => ((String.mk k, p.1), p.2))
        | _ => none
    | _ => none

def parseArrRest : Nat → List Char → Option (JValue × List Char)
  | 0, _ => none
  | fuel + 1, cs =>
    match skipWs cs with
    | ']' :: r => some (JValue.arr [], r)
    | other => (parseItems fuel other).map (fun p => (JValue.arr p.1, p.2))

def parseItems : Nat → List Char → Option (List JValue × List Char)
  | 0, _ => none
  | fuel + 1, cs =>
    match parseVal fuel cs with
    | none => none
    | some (v, r) =>
      match skipWs r with
      | ',' :: r2 => (parseItems fuel r2).map (fun p => (v :: p.1, p.2))
      | ']' :: r2 => some ([v], r2)
      | _ => none

end

/-- Model of Python json.loads on the modelled subset: one JSON document
followed by nothing but whitespace; failure (json.JSONDecodeError) is none. -/
def jsonLoads (s : String) : Option JValue :=
  match parseVal (8 * s.length + 16) s.data with
  | some (v, rest) => if skipWs rest = [] then some v else none
  | none => none

def hexDigit (n : Nat) : Char := if n < 10 then Char.ofNat (48 + n) else Char.ofNat (87 + n)

def hex4 (n : Nat) : String :=
  String.mk [hexDigit (n / 4096 % 16), hexDigit (n / 256 % 16), hexDigit (n / 16 % 16), hexDigit (n % 16)]

/-- Escape one character the way Python json.dumps (ensure_ascii=True) does. -/
def dumpChar (c : Char) : String :=
  if c = '"' then "\\\""
  else if c = '\\' then "\\\\"
  else if c = '\n' then "\\n"
  else if c = '\t' then "\\t"
  else if c = '\x0d' then "\\r"
  else if c = '\x08' then "\\b"
  else if c = '\x0c' then "\\f"
  else if c.toNat < 32 then "\\u" ++ hex4 c.toNat
  else if c.toNat < 127 then String.mk [c]
  else if c.toNat < 65536 then "\\u" ++ hex4 c.toNat
  else
    let n := c.toNat - 65536
    "\\u" ++ hex4 (0xd800 + n / 1024) ++ "\\u" ++ hex4 (0xdc00 + n % 1024)

def dumpStr (s : String) : String := "\"" ++ String.join (s.data.map dumpChar) ++ "\""

mutual

/-- Serialisation as Python json.dumps with default separators. -/
def dumpVal : JValue → String
  | JValue.null => "null"
  | JValue.bool true => "true"
  | JValue.bool false => "false"
  | JValue.num n => toString n
  | JValue.str s => dumpStr s
  | JValue.arr xs => "[" ++ dumpList xs ++ "]"
  | JValue.obj fs => "\x7b" ++ dumpFields fs ++ "\x7d"

def dumpList : List JValue → String
  | [] => ""
  | [x] => dumpVal x
  | x :: y :: xs => dumpVal x ++ ", " ++ dumpList (y :: xs)

def dumpFields : List (String × JValue) → String
  | [] => ""
  | [(k, v)] => dumpStr k ++ ": " ++ dumpVal v
  | (k, v) :: kv :: rest => dumpStr k ++ ": " ++ dumpVal v ++ ", " ++ dumpFields (kv :: rest)

end

def pyReprStrLit (s : String) : String :=
  "'" ++ String.join (s.data.map (fun c =>
    if c = '\\' then "\\\\" else if c = '\'' then "\\'" else String.mk [c])) ++ "'"

mutual

/-- Python repr of a json.loads result, adequate on the printable subset;
only used to model str() applied to a parsed "id" value. -/
def pyRepr : JValue → String
  | JValue.null => "None"
  | JValue.bool true => "True"
  | JValue.bool false => "False"
  | JValue.num n => toString n
  | JValue.str s => pyReprStrLit s
  | JValue.arr xs => "[" ++ pyReprList xs ++ "]"
  | JValue.obj fs => "\x7b" ++ pyReprFields fs ++ "\x7d"

def pyReprList : List JValue → String
  | [] => ""
  | [x] => pyRepr x
  | x :: y :: xs => pyRepr x ++ ", " ++ pyReprList (y :: xs)

def pyReprFields : List (String × JValue) → String
  | [] => ""
  | [(k, v)] => pyReprStrLit k ++ ": " ++ pyRepr v
  | (k, v) :: kv :: rest => pyReprStrLit k ++ ": " ++ pyRepr v ++ ", " ++ pyReprFields (kv :: rest)

end

/-- Python str() of a json.loads result. -/
def pyStr : JValue → String
  | JValue.str s => s
  | v => pyRepr v

/-- Stand-in for Python's builtin hash on the values reachable here.
CPython's string hash is randomised per process, so no concrete function is
faithful; every theorem whose content depends on hashing quantifies over the
hash function, and this concrete stand-in only evaluates closed statements
whose truth is independent of the particular function (it is a function, so
equal inputs give equal outputs, which is all that is used). -/
def hashModel (v : JValue) : Int :=
  Int.ofNat ((pyStr v).data.foldl (fun a c => a * 31 + c.toNat) 7)

/-- Uncaught-or-caught Python exceptions reachable in the modelled code. -/
inductive PyErr where
  | jsonDecodeError : PyErr
  | keyError : PyErr
  | attributeError : PyErr
  | typeError : PyErr
  | fileNotFoundError : PyErr
deriving DecidableEq

/-- The tool-call dict appended by call_model (agent.py:199-204).  ctype
models the constant "type": "tool_call" entry. -/
structure ToolCall where
  name : JValue
  args : JValue
  id : String
  ctype : String

/-- An assistant turn: content text plus the tool_calls list (the only two
AIMessage fields the modelled code reads or writes). -/
structure AIMessage where
  content : String
  tool_calls : List ToolCall

/-- One iteration of the extraction loop of call_model (agent.py:191-204) on
one parsed element: ok none when the element is skipped (not a dict, or no
"function" key), ok (some tc) when a tool call is appended, and errors for
the Python exceptions the loop can raise: AttributeError when the "function"
value is not a dict (func.get on it, line 194), KeyError when func has no
"name" (line 200), jsonDecodeError when a string "arguments" value fails
json.loads (line 196; caught by the surrounding except, agent.py:206), and
typeError when the parsed name is an unhashable list or dict: the id
default "call_" + str(hash(func["name"])) at line 202 is an eagerly
evaluated argument of tool.get, computed even when an explicit id is
present, and CPython's hash raises TypeError on lists and dicts.  Hashable
names (str, int, bool, None) are passed to the modelled hash h.
Note the elif at line 197: a string "arguments" value that parses to a
non-dict is kept as parsed, not normalised to an empty dict. -/
def processTool (h : JValue → Int) (tool : JValue) : Except PyErr (Option ToolCall) :=
  match tool with
  | JValue.obj fields =>
    match assocGet fields "function" with
    | none => Except.ok none
    | some func =>
      match func with
      | JValue.obj ffields =>
        let args0 := (assocGet ffields "arguments").getD (JValue.obj [])
        let argsE : Except PyErr JValue :=
          match args0 with
          | JValue.str s =>
            match jsonLoads s with
            | some v => Except.ok v
            | none => Except.error PyErr.jsonDecodeError
          | JValue.obj fs => Except.ok (JValue.obj fs)
          | _ => Except.ok (JValue.obj [])
        match argsE with
        | Except.error e => Except.error e
        | Except.ok args =>
          match assocGet ffields "name" with
          | none => Except.error PyErr.keyError
          | some nameV =>
            match nameV with
            | JValue.arr _ => Except.error PyErr.typeError
            | JValue.obj _ => Except.error PyErr.typeError
            | _ =>
              let idStr :=
                match assocGet fields "id" with
                | some idv => pyStr idv
                | none => "call_" ++ toString (h nameV)
              Except.ok (some ⟨nameV, args, idStr, "tool_call"⟩)
      | _ => Except.error PyErr.attributeError
  | _ => Except.ok none

/-- The extraction loop over all parsed elements (agent.py:190-204), in list
order, stopping at the first raised exception. -/
def processTools (h : JValue → Int) : List JValue → Except PyErr (List ToolCall)
  | [] => Except.ok []
  | t :: ts =>
    match processTool h t with
    | Except.error e => Except.error e
    | Except.ok r =>
      match processTools h ts with
      | Except.error e => Except.error e
      | Except.ok rest => Except.ok (match r with | some tc => tc :: rest | none => rest)

def pySpace (c : Char) : Bool :=
  c = ' ' || c = '\t' || c = '\n' || c = '\x0d' || c = '\x0b' || c = '\x0c'

/-- Python str.strip() on the ASCII whitespace subset. -/
def pyStrip (s : String) : String :=
  String.mk (((s.data.dropWhile pySpace).reverse.dropWhile pySpace).reverse)

/-- The wrap applied at agent.py:188-189: a non-list parse result is treated
as a one-element list. -/
def defaultToList (v : JValue) : List JValue :=
  match v with
  | JValue.arr xs => xs
  | other => [other]

/-- The textual extraction stage of call_model (agent.py:184-209) as a
function of the already-repaired text fixed_content.  The guard models
`if fixed_content.strip():` (truthiness of the stripped string); the
try/except catches exactly json.JSONDecodeError, whether raised by the
top-level json.loads (line 187) or by json.loads on a string "arguments"
value (line 196), yielding an assistant message whose content is the
repaired text; KeyError and AttributeError escape uncaught. -/
def extract_stage (h : JValue → Int) (fixed : String) : Except PyErr AIMessage :=
  if pyStrip fixed = "" then Except.ok ⟨"", []⟩
  else
    match jsonLoads fixed with
    | none => Except.ok ⟨fixed, []⟩
    | some v =>
      match processTools h (defaultToList v) with
      | Except.ok tcs => Except.ok ⟨"", tcs⟩
      | Except.error PyErr.jsonDecodeError => Except.ok ⟨fixed, []⟩
      | Except.error e => Except.error e

/-- The surrogate-stripping clean (agent.py:176-179): encode/decode with
errors="ignore" drops unpaired surrogate code points.  Lean strings cannot
hold surrogates, so on this model the filter removes nothing, but it is kept
to mirror the source. -/
def cleanContent (s : String) : String :=
  String.mk (s.data.filter (fun c => decide (c.toNat < 0xd800) || decide (0xdfff < c.toNat)))

/-- The raw model turn handed to call_model: the backend's text content and
its natively structured tool calls (raw_response.content / .tool_calls). -/
structure RawResponse where
  content : String
  tool_calls : List ToolCall

/-- call_model (agent.py:171-210) as a function of the raw model turn, with
the external json_repair pass supplied as a parameter.  The source builds
cleaned_response = AIMessage(content, tool_calls=raw_response.tool_calls) at
line 182 and never uses it: the returned message is always rebuilt from the
repaired text, which this definition reflects by never consulting
raw.tool_calls. -/
def call_model (repairJ : String → String) (h : JValue → Int) (raw : RawResponse) :
    Except PyErr AIMessage :=
  extract_stage h (repairJ (cleanContent raw.content))

/-- Concrete model of the external json_repair.repair_json dependency: on
already-valid JSON (the only inputs at which the closed theorems below
evaluate it) the library parses the text and re-serialises it with
json.dumps defaults, which this definition reproduces; its heuristic repair
of malformed text is not modelled (such input is returned unchanged).
Theorems whose truth depends on repair behaviour keep the pass abstract. -/
def repair_json_model (s : String) : String :=
  match jsonLoads s with
  | some v => dumpVal v
  | none => s

/-- Transcript messages, by role (langchain message classes). -/
inductive Msg where
  | system (content : String) : Msg
  | human (content : String) : Msg
  | ai (m : AIMessage) : Msg
  | toolMsg (content : String) (tool_call_id : String) : Msg

def msgToolCalls : Msg → List ToolCall
  | Msg.ai m => m.tool_calls
  | _ => []

/-- should_continue (agent.py:214-219): "tools" when the last message
carries tool calls (Python truthiness of the list), otherwise END
(modelled by the string "END"). -/
def should_continue (msgs : List Msg) : String :=
  match msgs.getLast? with
  | some m => if (msgToolCalls m).isEmpty then "END" else "tools"
  | none => "END"

/-- The prebuilt ToolNode: one ToolMessage per requested call, in request
order, carrying the matching tool_call_id. -/
def toolNode (exec : ToolCall → String) (tcs : List ToolCall) : List Msg :=
  tcs.map (fun tc => Msg.toolMsg (exec tc) tc.id)

/-- The compiled graph (agent.py:221-237): entry at the agent node, a
conditional edge routed by should_continue to the tools node or END, and an
edge from tools back to agent.  callM abstracts the agent node's
call_model + model invocation, exec abstracts tool execution.  Fuel models
the langgraph recursion limit; none means the limit was hit. -/
def runLoop (callM : List Msg → AIMessage) (exec : ToolCall → String) :
    Nat → List Msg → Option (List Msg)
  | 0, _ => none
  | n + 1, msgs =>
    let ai := callM msgs
    let msgs1 := msgs ++ [Msg.ai ai]
    if should_continue msgs1 = "tools" then
      runLoop callM exec n (msgs1 ++ toolNode exec ai.tool_calls)
    else some msgs1

/-- The transcript ends with an assistant message carrying no tool calls. -/
def lastIsAINoCalls (msgs : List Msg) : Bool :=
  match msgs.getLast? with
  | some (Msg.ai m) => m.tool_calls.isEmpty
  | _ => false

/-- File contents are character sequences (Python text-mode str). -/
abbrev Content := List Char

/-- The file system visible to the tools: a finite map from resolved path
strings to text contents (resolve_abs_path is injective on the paths used,
so paths are opaque keys here). -/
abbrev FS := List (String × Content)

def getFile (fs : FS) (p : String) : Option Content := assocGet fs p

def setFile (fs : FS) (p : String) (content : Content) : FS := assocSet fs p content

/-- The "action" field of edit_file's structured result dict
(agent.py:144-158); the dict's "path" echo is constant and not modelled. -/
inductive EditAction where
  | createdFile : EditAction
  | notFound : EditAction
  | edited : EditAction
deriving DecidableEq

/-- First-occurrence split: splitOnFirst pat s = some (b, a) exactly when s
= b ++ pat ++ a with the occurrence of pat at the lowest offset.  For
non-empty pat this models Python's s.find(pat) == -1 (the none case) and
s.replace(pat, new, 1) = b ++ new ++ a (agent.py:149,154). -/
def splitOnFirst (pat : Content) : Content → Option (Content × Content)
  | [] => if pat.isEmpty then some ([], []) else none
  | c :: rest =>
    if pat.isPrefixOf (c :: rest) then some ([], (c :: rest).drop pat.length)
    else
      match splitOnFirst pat rest with
      | some (b, a) => some (c :: b, a)
      | none => none

/-- edit_file (agent.py:138-159): empty old_str creates/overwrites the file;
otherwise the file is read (FileNotFoundError when absent), an absent
old_str yields the structured "old_str not found" result with the file
untouched, and an occurrence is replaced first-occurrence-only via
str.replace(old_str, new_str, 1). -/
def edit_file (fs : FS) (path : String) (old_str new_str : Content) :
    Except PyErr (FS × EditAction) :=
  if old_str.isEmpty then Except.ok (setFile fs path new_str, EditAction.createdFile)
  else
    match getFile fs path with
    | none => Except.error PyErr.fileNotFoundError
    | some original =>
      match splitOnFirst old_str original with
      | none => Except.ok (fs, EditAction.notFound)
      | some (b, a) => Except.ok (setFile fs path (b ++ new_str ++ a), EditAction.edited)

/-- Kind of a directory entry's filesystem object; a symlink carries the
kind of what it points at, so the symlink-following of Path.is_file can be
modelled. -/
inductive FileKind where
  | regular : FileKind
  | directory : FileKind
  | fifo : FileKind
  | socket : FileKind
  | blockDevice : FileKind
  | charDevice : FileKind
  | brokenSymlink : FileKind
  | symlink (target : FileKind) : FileKind
deriving DecidableEq

/-- pathlib.Path.is_file(): follows symlinks; true exactly for regular
files, false for directories, specials and broken links. -/
def pathIsFile : FileKind → Bool
  | FileKind.regular => true
  | FileKind.symlink t => pathIsFile t
  | _ => false

/-- list_files (agent.py:123-136) on the immediate children of an existing
directory: one (filename, type) entry per child of iterdir(), type "file"
when item.is_file() and "dir" otherwise. -/
def list_files (children : List (String × FileKind)) : List (String × String) :=
  children.map (fun e => (e.1, if pathIsFile e.2 then "file" else "dir"))

/-- The filesystem object a directory entry designates: itself, or the final
target of a symlink chain. -/
def resolveKind : FileKind → FileKind
  | FileKind.symlink t => resolveKind t
  | k => k

/-- Classification in the words of claim C10: "file" when the entry's
filesystem object is a regular file, "dir" for every other entry. -/
def claimClassify (k : FileKind) : String :=
  if resolveKind k = FileKind.regular then "file" else "dir"

/-- Decoded file bytes carried by the binary-safe channel. -/
abbrev Bytes := List Nat

/-- File system holding the binary-safe tools' decoded contents. -/
abbrev EncFS := List (String × Bytes)

/-- Value of one character of the standard base64 alphabet. -/
def b64Val (c : Char) : Option Nat :=
  if 'A' ≤ c ∧ c ≤ 'Z' then some (c.toNat - 65)
  else if 'a' ≤ c ∧ c ≤ 'z' then some (c.toNat - 97 + 26)
  else if '0' ≤ c ∧ c ≤ '9' then some (c.toNat - 48 + 52)
  else if c = '+' then some 62
  else if c = '/' then some 63
  else none

/-- Strict base64 decoding of four-character groups, with '=' padding
allowed only in the final group; none models the EncodingError of an
invalid payload. -/
def b64DecodeList : List Char → Option Bytes
  | [] => some []
  | c1 :: c2 :: c3 :: c4 :: rest =>
    match b64Val c1, b64Val c2 with
    | some v1, some v2 =>
      if c3 = '=' then
        if c4 = '=' ∧ rest = [] then some [v1 * 4 + v2 / 16] else none
      else
        match b64Val c3 with
        | some v3 =>
          if c4 = '=' then
            if rest = [] then some [v1 * 4 + v2 / 16, (v2 % 16) * 16 + v3 / 4] else none
          else
            match b64Val c4 with
            | some v4 =>
              (b64DecodeList rest).map
                (fun bs => (v1 * 4 + v2 / 16) :: ((v2 % 16) * 16 + v3 / 4) :: ((v3 % 4) * 64 + v4) :: bs)
            | none => none
        | none => none
    | _, _ => none
  | _ => none

/-- The reversible binary-safe decoding of spec section 4.4 ("e.g., base64"),
instantiated as strict standard base64. -/
def b64decode (s : String) : Option Bytes := b64DecodeList s.data

/-- Modelled from the spec: write_encoded (spec section 4.4).  The tool is
described in the spec but absent from src/Agent/agent.py, whose tool
registry (line 161) holds only read_file, list_files and edit_file.  Per the
spec it creates or fully replaces a file's content with the decoded payload,
failing with EncodingError (none) on an invalid encoded payload. -/
def write_encoded (fs : EncFS) (path : String) (enc : String) : Option EncFS :=
  (b64decode enc).map (fun bs => assocSet fs path bs)

/-- Modelled from the spec: append_encoded (spec section 4.4).  The tool is
described in the spec but absent from src/Agent/agent.py (see
write_encoded).  Per the spec it appends the decoded payload to the end of
an existing file, failing with EncodingError (none) on an invalid payload. -/
def append_encoded (fs : EncFS) (path : String) (enc : String) : Option EncFS :=
  match assocGet fs path, b64decode enc with
  | some cur, some bs => some (assocSet fs path (cur ++ bs))
  | _, _ => none

/-- Sequence of append_encoded calls with the fragments in call order. -/
def appendAll (path : String) : EncFS → List String → Option EncFS
  | fs, [] => some fs
  | fs, f :: rest =>
    match append_encoded fs path f with
    | some fs1 => appendAll path fs1 rest
    | none => none

/-- Decode of every fragment, in order. -/
def decodeAll : List String → Option (List Bytes)
  | [] => some []
  | f :: fs =>
    match b64decode f, decodeAll fs with
    | some b, some bs => some (b :: bs)
    | _, _ => none

/- ------------------------------------------------------------------ -/
/- Helper lemmas                                                       -/
/- ------------------------------------------------------------------ -/

lemma isPrefixOf_append_self (p s : List Char) : p.isPrefixOf (p ++ s) = true := by
  induction p with
  | nil => simp
  | cons c cs ih => simp [List.isPrefixOf, ih]

lemma splitOnFirst_first (pat : Content) (hne : pat ≠ []) :
    ∀ (b a : Content),
      (∀ i < b.length, pat.isPrefixOf ((b ++ pat ++ a).drop i) = false) →
      splitOnFirst pat (b ++ pat ++ a) = some (b, a) := by
  intro b
  induction b with
  | nil =>
    intro a _
    obtain ⟨p, ps, rfl⟩ : ∃ p ps, pat = p :: ps := by
      cases pat with
      | nil => exact absurd rfl hne
      | cons p ps => exact ⟨p, ps, rfl⟩
    show splitOnFirst (p :: ps) (p :: (ps ++ a)) = some ([], a)
    rw [splitOnFirst]
    rw [if_pos (show (p :: ps).isPrefixOf (p :: (ps ++ a)) = true from isPrefixOf_append_self (p :: ps) a)]
    simp [List.drop_succ_cons, List.drop_left]
  | cons c b' ih =>
    intro a hmin
    have h0 : pat.isPrefixOf (c :: (b' ++ pat ++ a)) = false := by
      simpa using hmin 0 (Nat.succ_pos _)
    show splitOnFirst pat (c :: (b' ++ pat ++ a)) = some (c :: b', a)
    rw [splitOnFirst]
    rw [if_neg (by rw [h0]; simp)]
    have hrec : splitOnFirst pat (b' ++ pat ++ a) = some (b', a) := by
      apply ih
      intro i hi
      simpa [List.drop_succ_cons] using hmin (i + 1) (Nat.succ_lt_succ hi)
    rw [hrec]

lemma splitOnFirst_none (pat : Content) (hne : pat ≠ []) :
    ∀ (s : Content), (∀ i < s.length, pat.isPrefixOf (s.drop i) = false) →
      splitOnFirst pat s = none := by
  intro s
  induction s with
  | nil =>
    intro _
    rw [splitOnFirst]
    rw [if_neg (by simp [hne])]
  | cons c rest ih =>
    intro habs
    have h0 : pat.isPrefixOf (c :: rest) = false := by
      simpa using habs 0 (Nat.succ_pos _)
    rw [splitOnFirst]
    rw [if_neg (by rw [h0]; simp)]
    rw [ih (fun i hi => by simpa [List.drop_succ_cons] using habs (i + 1) (Nat.succ_lt_succ hi))]

theorem C4_replace_first (fs : FS) (path : String) (old_str new_str b a : Content)
    (hfile : getFile fs path = some (b ++ old_str ++ a))
    (hne : old_str ≠ [])
    (hfirst : ∀ i < b.length, old_str.isPrefixOf ((b ++ old_str ++ a).drop i) = false) :
    edit_file fs path old_str new_str =
      Except.ok (setFile fs path (b ++ new_str ++ a), EditAction.edited) := by
  have hsplit : splitOnFirst old_str (b ++ (old_str ++ a)) = some (b, a) := by
    rw [← List.append_assoc]; exact splitOnFirst_first old_str hne b a hfirst
  simp [edit_file, hfile, hsplit, hne]

theorem C5_not_found (fs : FS) (path : String) (old_str new_str content : Content)
    (hfile : getFile fs path = some content)
    (hne : old_str ≠ [])
    (habs : ∀ i < content.length, old_str.isPrefixOf (content.drop i) = false) :
    edit_file fs path old_str new_str = Except.ok (fs, EditAction.notFound) := by
  have hsplit := splitOnFirst_none old_str hne content habs
  simp [edit_file, hfile, hsplit, hne]

lemma assocGet_assocSet {α : Type} (l : List (String × α)) (k : String) (v : α) :
    assocGet (assocSet l k v) k = some v := by
  induction l with
  | nil => simp [assocGet, assocSet]
  | cons kv rest ih =>
    obtain ⟨k0, w⟩ := kv
    by_cases hk : k0 = k
    · simp [assocGet, assocSet, hk]
    · simp [assocGet, assocSet, hk, ih]

lemma assocSet_assocSet {α : Type} (l : List (String × α)) (k : String) (v w : α) :
    assocSet (assocSet l k v) k w = assocSet l k w := by
  induction l with
  | nil => simp [assocSet]
  | cons kv rest ih =>
    obtain ⟨k0, u⟩ := kv
    by_cases hk : k0 = k
    · simp [assocSet, hk]
    · simp [assocSet, hk, ih]

theorem C8_empty_old_overwrites (fs : FS) (path : String) (content : Content) :
    edit_file fs path [] content =
      Except.ok (setFile fs path content, EditAction.createdFile) ∧
    getFile (setFile fs path content) path = some content ∧
    edit_file (setFile fs path content) path [] content =
      Except.ok (setFile fs path content, EditAction.createdFile) := by
  refine ⟨by simp [edit_file], assocGet_assocSet fs path content, ?_⟩
  simp [edit_file, setFile, assocSet_assocSet]

theorem C4_witness :
    getFile [("notes.txt", "xTODOyTODOz".data)] "notes.txt" =
      some ("x".data ++ "TODO".data ++ "yTODOz".data) ∧
    edit_file [("notes.txt", "xTODOyTODOz".data)] "notes.txt" "TODO".data "DONE".data =
      Except.ok (setFile [("notes.txt", "xTODOyTODOz".data)] "notes.txt"
        ("x".data ++ "DONE".data ++ "yTODOz".data), EditAction.edited) :=
  ⟨by decide,
   C4_replace_first [("notes.txt", "xTODOyTODOz".data)] "notes.txt"
     "TODO".data "DONE".data "x".data "yTODOz".data
     (by decide) (by decide) (by decide)⟩

theorem C5_witness :
    getFile [("a.txt", "abc".data)] "a.txt" = some "abc".data ∧
    edit_file [("a.txt", "abc".data)] "a.txt" "zz".data "q".data =
      Except.ok ([("a.txt", "abc".data)], EditAction.notFound) :=
  ⟨by decide,
   C5_not_found [("a.txt", "abc".data)] "a.txt" "zz".data "q".data "abc".data
     (by decide) (by decide) (by decide)⟩

/-- Bool test used to state C2: the element is a dict carrying a
"function" key (the only elements the extraction loop does not skip,
agent.py:192). -/
def hasFunctionKey (v : JValue) : Bool :=
  match v with
  | JValue.obj fs => (assocGet fs "function").isSome
  | _ => false

lemma processTool_no_function (h : JValue → Int) (e : JValue)
    (he : hasFunctionKey e = false) : processTool h e = Except.ok none := by
  cases e with
  | obj fields =>
    cases hf : assocGet fields "function" with
    | none => simp [processTool, hf]
    | some func => simp [hasFunctionKey, hf] at he
  | null => rfl
  | bool b => rfl
  | num n => rfl
  | str s => rfl
  | arr xs => rfl

lemma processTools_skips (h : JValue → Int) :
    ∀ ts : List JValue, (∀ e ∈ ts, hasFunctionKey e = false) →
      processTools h ts = Except.ok [] := by
  intro ts
  induction ts with
  | nil => intro _; rfl
  | cons t rest ih =>
    intro hall
    have ht := processTool_no_function h t (hall t (List.mem_cons_self t rest))
    have hr := ih (fun e he => hall e (List.mem_cons_of_mem t he))
    simp [processTools, ht, hr]

lemma processTools_append (h : JValue → Int) :
    ∀ (pre l : List JValue) (tcs : List ToolCall),
      processTools h pre = Except.ok tcs →
      processTools h (pre ++ l) = (processTools h l).map (fun r => tcs ++ r) := by
  intro pre
  induction pre with
  | nil =>
    intro l tcs hpre
    obtain rfl : ([] : List ToolCall) = tcs := by
      simpa [processTools] using hpre
    cases hl : processTools h l with
    | ok r => simp [hl, Except.map]
    | error e => simp [hl, Except.map]
  | cons t pre' ih =>
    intro l tcs hpre
    rw [show (t :: pre') ++ l = t :: (pre' ++ l) from rfl]
    cases hpt : processTool h t with
    | error e => simp only [processTools, hpt] at hpre; cases hpre
    | ok r =>
      cases hrest : processTools h pre' with
      | error e => simp only [processTools, hpt, hrest] at hpre; cases hpre
      | ok rest =>
        simp only [processTools, hpt, hrest] at hpre
        simp only [processTools, hpt, ih l rest hrest]
        cases r with
        | some tc =>
          obtain rfl := Except.ok.inj hpre
          cases hl : processTools h l <;> simp [Except.map]
        | none =>
          obtain rfl := Except.ok.inj hpre
          cases hl : processTools h l <;> simp [Except.map]

/-- C2 (amended): for every repaired text on the textual fallback path the
extraction stage never raises, and: a blank repaired text (empty after
str.strip) yields zero tool calls with empty content (the else branch,
agent.py:208-209); a non-blank repaired text that fails to parse as JSON
yields zero tool calls with the repaired text as content; a repaired text
that parses to a value none of whose elements is an object carrying a
"function" entry yields zero tool calls with empty content. -/
theorem C2_unparsable_degrades (h : JValue → Int) (fixed : String) :
    (pyStrip fixed = "" → extract_stage h fixed = Except.ok ⟨"", []⟩) ∧
    (pyStrip fixed ≠ "" → jsonLoads fixed = none →
      extract_stage h fixed = Except.ok ⟨fixed, []⟩) ∧
    (∀ v, jsonLoads fixed = some v →
      (∀ e ∈ defaultToList v, hasFunctionKey e = false) →
      extract_stage h fixed = Except.ok ⟨"", []⟩) := by
  refine ⟨?_, ?_, ?_⟩
  · intro hb
    unfold extract_stage
    rw [if_pos hb]
  · intro hnb hp
    unfold extract_stage
    rw [if_neg hnb, hp]
  · intro v hp hall
    by_cases hb : pyStrip fixed = ""
    · unfold extract_stage
      rw [if_pos hb]
    · unfold extract_stage
      rw [if_neg hb, hp]
      show (match processTools h (defaultToList v) with
            | Except.ok tcs => Except.ok (AIMessage.mk "" tcs)
            | Except.error PyErr.jsonDecodeError => Except.ok (AIMessage.mk fixed [])
            | Except.error e => (Except.error e : Except PyErr AIMessage)) =
          Except.ok (AIMessage.mk "" [])
      rw [processTools_skips h (defaultToList v) hall]

theorem C2_counterexample :
    call_model repair_json_model hashModel ⟨"[1, 2]", []⟩ = Except.ok ⟨"", []⟩ ∧
    ("" : String) ≠ "[1, 2]" :=
  ⟨rfl, by decide⟩

theorem C2_witness :
    extract_stage hashModel " " = Except.ok ⟨"", []⟩ ∧
    extract_stage hashModel "[\x7bnot" = Except.ok ⟨"[\x7bnot", []⟩ ∧
    extract_stage hashModel "[3]" = Except.ok ⟨"", []⟩ :=
  ⟨(C2_unparsable_degrades hashModel " ").1 (by decide),
   (C2_unparsable_degrades hashModel "[\x7bnot").2.1 (by decide) rfl,
   (C2_unparsable_degrades hashModel "[3]").2.2 (JValue.arr [JValue.num 3]) rfl
     (fun e he => by rw [List.mem_singleton.mp he]; rfl)⟩

/-- A natively structured tool invocation as the backend would return it. -/
def nativeToolCall : ToolCall :=
  ⟨JValue.str "read_file", JValue.obj [("filename", JValue.str "x")], "call_1", "tool_call"⟩

/-- C1: failing input for the structured path.  The backend natively
returns one well-formed tool invocation together with text content
"[1, 2]"; call_model's result carries zero tool calls and empty content —
the native invocation is not passed through (cleaned_response, built with
it at agent.py:182, is never used). -/
theorem C1_structured_calls_dropped :
    call_model repair_json_model hashModel ⟨"[1, 2]", [nativeToolCall]⟩ =
      Except.ok ⟨"", []⟩ :=
  rfl

/-- Ids of the tool calls of an extraction result (empty on error). -/
def resultIds (r : Except PyErr AIMessage) : List String :=
  match r with
  | Except.ok m => m.tool_calls.map (fun tc => tc.id)
  | Except.error _ => []

/-- Repaired text with two id-less invocations of the same tool. -/
def exS7 : String :=
  "[\x7b\"function\":\x7b\"name\":\"f\",\"arguments\":\x7b\x7d\x7d\x7d,\x7b\"function\":\x7b\"name\":\"f\",\"arguments\":\x7b\x7d\x7d\x7d]"

/-- C7 counterexample: two parsed elements with the same name and no id
receive the same synthesized id, so ids are not unique within the
assistant turn. -/
theorem C7_counterexample :
    resultIds (extract_stage hashModel exS7) = ["call_319", "call_319"] ∧
    ¬ (resultIds (extract_stage hashModel exS7)).Nodup :=
  ⟨rfl, by decide⟩

/-- Element of the textual wire shape carrying name and arguments but no
id. -/
def elemNoId (name : String) (args : List (String × JValue)) : JValue :=
  JValue.obj [("function", JValue.obj [("name", JValue.str name), ("arguments", JValue.obj args)])]

/-- The same element with an explicit id field. -/
def elemWithId (idv : JValue) (name : String) (args : List (String × JValue)) : JValue :=
  JValue.obj [("id", idv),
    ("function", JValue.obj [("name", JValue.str name), ("arguments", JValue.obj args)])]

/-- C7 (amended): when a parsed element carries no id the extraction stage
synthesizes one deterministically from the tool name alone, as
"call_" ++ str(hash(name)); an explicit id is used via str(id); ids are
not guaranteed unique within the turn — two elements with the same name
and no id receive the identical id (third conjunct). -/
theorem C7_id_synthesis (h : JValue → Int) (name : String) (idv : JValue)
    (args : List (String × JValue)) :
    processTool h (elemNoId name args) =
      Except.ok (some ⟨JValue.str name, JValue.obj args,
        "call_" ++ toString (h (JValue.str name)), "tool_call"⟩) ∧
    processTool h (elemWithId idv name args) =
      Except.ok (some ⟨JValue.str name, JValue.obj args, pyStr idv, "tool_call"⟩) ∧
    processTools h [elemNoId name args, elemNoId name args] =
      Except.ok [⟨JValue.str name, JValue.obj args,
          "call_" ++ toString (h (JValue.str name)), "tool_call"⟩,
        ⟨JValue.str name, JValue.obj args,
          "call_" ++ toString (h (JValue.str name)), "tool_call"⟩] :=
  ⟨rfl, rfl, rfl⟩

/-- Bool test used to state C9: the element carries a "function" dict whose
"arguments" value is a string that is not valid JSON (json.loads on it
raises, agent.py:196). -/
def badArgsElem (e : JValue) : Bool :=
  match e with
  | JValue.obj fs =>
    match assocGet fs "function" with
    | some (JValue.obj ffs) =>
      match assocGet ffs "arguments" with
      | some (JValue.str s) => (jsonLoads s).isNone
      | _ => false
    | _ => false
  | _ => false

lemma processTool_badArgs (h : JValue → Int) (e : JValue)
    (he : badArgsElem e = true) :
    processTool h e = Except.error PyErr.jsonDecodeError := by
  cases e with
  | obj fields =>
    cases hf : assocGet fields "function" with
    | none => simp [badArgsElem, hf] at he
    | some func =>
      cases func with
      | obj ffields =>
        cases ha : assocGet ffields "arguments" with
        | none => simp [badArgsElem, hf, ha] at he
        | some av =>
          cases av with
          | str s =>
            cases hj : jsonLoads s with
            | some v => simp [badArgsElem, hf, ha, hj] at he
            | none => simp [processTool, hf, ha, hj]
          | null => simp [badArgsElem, hf, ha] at he
          | bool b => simp [badArgsElem, hf, ha] at he
          | num n => simp [badArgsElem, hf, ha] at he
          | arr xs => simp [badArgsElem, hf, ha] at he
          | obj fs2 => simp [badArgsElem, hf, ha] at he
      | null => simp [badArgsElem, hf] at he
      | bool b => simp [badArgsElem, hf] at he
      | num n => simp [badArgsElem, hf] at he
      | str s => simp [badArgsElem, hf] at he
      | arr xs => simp [badArgsElem, hf] at he
  | null => simp [badArgsElem] at he
  | bool b => simp [badArgsElem] at he
  | num n => simp [badArgsElem] at he
  | str s => simp [badArgsElem] at he
  | arr xs => simp [badArgsElem] at he

/-- C9 (amended): when the repaired text parses to a list containing an
element whose "function" dict has a string "arguments" value that is not
valid JSON, and every element before the first such element processes
without an uncaught exception, the raised json.JSONDecodeError is caught
and the entire extraction degrades: every tool call (including well-formed
earlier ones) is dropped and the assistant message carries the repaired
text with zero tool calls.  (Without the proviso on earlier elements the
stage can instead raise — AttributeError on a non-dict "function" value
(see the counterexample), KeyError on a missing name, or TypeError on an
unhashable name — and never reach the bad-arguments element.) -/
theorem C9_bad_args_degrades (h : JValue → Int) (fixed : String)
    (pre : List JValue) (bad : JValue) (post : List JValue) (tcs : List ToolCall)
    (hparse : jsonLoads fixed = some (JValue.arr (pre ++ bad :: post)))
    (hnb : pyStrip fixed ≠ "")
    (hpre : processTools h pre = Except.ok tcs)
    (hbad : badArgsElem bad = true) :
    extract_stage h fixed = Except.ok ⟨fixed, []⟩ := by
  have hchain : processTools h (pre ++ bad :: post) = Except.error PyErr.jsonDecodeError := by
    rw [processTools_append h pre (bad :: post) tcs hpre]
    rw [show processTools h (bad :: post) = Except.error PyErr.jsonDecodeError from by
      simp only [processTools, processTool_badArgs h bad hbad]]
    rfl
  unfold extract_stage
  rw [if_neg hnb, hparse]
  show (match processTools h (defaultToList (JValue.arr (pre ++ bad :: post))) with
        | Except.ok tcs => Except.ok (AIMessage.mk "" tcs)
        | Except.error PyErr.jsonDecodeError => Except.ok (AIMessage.mk fixed [])
        | Except.error e => (Except.error e : Except PyErr AIMessage)) =
      Except.ok (AIMessage.mk fixed [])
  rw [show defaultToList (JValue.arr (pre ++ bad :: post)) = pre ++ bad :: post from rfl]
  rw [hchain]

/-- Repaired text whose second element has an unparsable string
"arguments" value, preceded by a well-formed element. -/
def exS9 : String :=
  "[\x7b\"function\":\x7b\"name\":\"g\",\"arguments\":\x7b\x7d\x7d\x7d,\x7b\"function\":\x7b\"name\":\"f\",\"arguments\":\"\x7bnot\"\x7d\x7d]"

def gElem : JValue :=
  JValue.obj [("function", JValue.obj [("name", JValue.str "g"), ("arguments", JValue.obj [])])]

def fBadElem : JValue :=
  JValue.obj [("function", JValue.obj [("name", JValue.str "f"), ("arguments", JValue.str "\x7bnot")])]

theorem C9_witness :
    jsonLoads exS9 = some (JValue.arr [gElem, fBadElem]) ∧
    badArgsElem fBadElem = true ∧
    extract_stage hashModel exS9 = Except.ok ⟨exS9, []⟩ :=
  ⟨rfl, rfl,
   C9_bad_args_degrades hashModel exS9 [gElem] fBadElem []
     [⟨JValue.str "g", JValue.obj [], "call_320", "tool_call"⟩]
     rfl (by decide) rfl rfl⟩

/-- Like exS9 but the element before the bad-arguments one has a
non-dict "function" value. -/
def exS9x : String :=
  "[\x7b\"function\":5\x7d,\x7b\"function\":\x7b\"name\":\"f\",\"arguments\":\"\x7bnot\"\x7d\x7d]"

/-- C9 counterexample: the list contains an element whose string
"arguments" value is invalid JSON, yet the extraction does not degrade to
a plain-content assistant message — it raises AttributeError on the
earlier element whose "function" value is not a dict. -/
theorem C9_counterexample :
    extract_stage hashModel exS9x = Except.error PyErr.attributeError ∧
    extract_stage hashModel exS9x ≠ Except.ok ⟨exS9x, []⟩ :=
  ⟨rfl, fun hc => by
    rw [show extract_stage hashModel exS9x = Except.error PyErr.attributeError from rfl] at hc
    exact Except.noConfusion hc⟩

/-- C6: an assistant message with zero tool calls terminates the exchange —
every completed run's transcript ends at that assistant message, so no
tool message ever follows it, and control returns to the caller (some);
conversely an assistant message with one or more tool calls transitions to
tool execution: the loop continues on the transcript extended with the
assistant message followed by the ToolNode messages for exactly those
calls. -/
theorem C6_loop_control (callM : List Msg → AIMessage) (exec : ToolCall → String)
    (n : Nat) (msgs final : List Msg) :
    (runLoop callM exec n msgs = some final → lastIsAINoCalls final = true) ∧
    (∀ tc tcs, (callM msgs).tool_calls = tc :: tcs →
      runLoop callM exec (n + 1) msgs =
        runLoop callM exec n ((msgs ++ [Msg.ai (callM msgs)]) ++ toolNode exec (tc :: tcs))) := by
  constructor
  · induction n generalizing msgs with
    | zero => intro hcontra; simp [runLoop] at hcontra
    | succ n ih =>
      intro hrun
      rw [runLoop] at hrun
      by_cases hsc : should_continue (msgs ++ [Msg.ai (callM msgs)]) = "tools"
      · rw [if_pos hsc] at hrun
        exact ih _ hrun
      · rw [if_neg hsc] at hrun
        obtain rfl : msgs ++ [Msg.ai (callM msgs)] = final := Option.some.inj hrun
        unfold should_continue at hsc
        rw [List.getLast?_concat] at hsc
        unfold lastIsAINoCalls
        rw [List.getLast?_concat]
        by_cases hemp : (callM msgs).tool_calls.isEmpty
        · exact hemp
        · exfalso
          apply hsc
          simp only [msgToolCalls]
          rw [if_neg (by simpa using hemp)]
  · intro tc tcs htc
    rw [runLoop]
    rw [if_pos (by
      unfold should_continue
      rw [List.getLast?_concat]
      simp [msgToolCalls, htc])]
    rw [htc]

/-- Concrete agent-node model for the C6 witness: one tool request on the
first turn, a plain answer afterwards. -/
def loopCall : ToolCall :=
  ⟨JValue.str "list_files", JValue.obj [("path", JValue.str ".")], "id1", "tool_call"⟩

def cm0 : List Msg → AIMessage :=
  fun ms => if ms.length = 0 then ⟨"", [loopCall]⟩ else ⟨"done", []⟩

def ex0 : ToolCall → String := fun _ => "result"

theorem C6_witness :
    runLoop cm0 ex0 2 [] =
      some [Msg.ai ⟨"", [loopCall]⟩, Msg.toolMsg "result" "id1", Msg.ai ⟨"done", []⟩] ∧
    lastIsAINoCalls [Msg.ai ⟨"", [loopCall]⟩, Msg.toolMsg "result" "id1", Msg.ai ⟨"done", []⟩] = true ∧
    (cm0 []).tool_calls = [loopCall] ∧
    runLoop cm0 ex0 1 [] =
      runLoop cm0 ex0 0 (([] ++ [Msg.ai (cm0 [])]) ++ toolNode ex0 [loopCall]) :=
  ⟨rfl,
   (C6_loop_control cm0 ex0 2 []
     [Msg.ai ⟨"", [loopCall]⟩, Msg.toolMsg "result" "id1", Msg.ai ⟨"done", []⟩]).1 rfl,
   rfl,
   (C6_loop_control cm0 ex0 0 [] []).2 loopCall [] rfl⟩

lemma pathIsFile_eq_claimClassify (k : FileKind) :
    (if pathIsFile k then "file" else "dir") = claimClassify k := by
  induction k with
  | symlink t ih =>
    show (if pathIsFile t then "file" else "dir") = claimClassify (FileKind.symlink t)
    rw [ih]
    unfold claimClassify
    rw [show resolveKind (FileKind.symlink t) = resolveKind t from rfl]
  | regular => rfl
  | directory => rfl
  | fifo => rfl
  | socket => rfl
  | blockDevice => rfl
  | charDevice => rfl
  | brokenSymlink => rfl

/-- C10: list_files returns exactly the directory's immediate children, in
iterdir order with their names preserved, classifying each entry whose
filesystem object (after following symlink chains) is a regular file as
"file" and every other entry — directories, specials, and symlinks that do
not lead to a regular file — as "dir". -/
theorem C10_list_files_classification (children : List (String × FileKind)) :
    list_files children = children.map (fun e => (e.1, claimClassify e.2)) ∧
    (list_files children).map Prod.fst = children.map Prod.fst := by
  constructor
  · unfold list_files
    simp only [pathIsFile_eq_claimClassify]
  · unfold list_files
    simp

lemma appendAll_content (path : String) :
    ∀ (frs : List String) (fs : EncFS) (cur : Bytes) (ds : List Bytes),
      assocGet fs path = some cur → decodeAll frs = some ds →
      (appendAll path fs frs).bind (fun f => assocGet f path) =
        some (cur ++ ds.flatten) := by
  intro frs
  induction frs with
  | nil =>
    intro fs cur ds hget hdec
    obtain rfl : ([] : List Bytes) = ds := by simpa [decodeAll] using hdec
    simp [appendAll, hget]
  | cons f rest ih =>
    intro fs cur ds hget hdec
    cases hb : b64decode f with
    | none =>
      simp only [decodeAll, hb] at hdec
      exact Option.noConfusion hdec
    | some bs =>
      cases hd : decodeAll rest with
      | none =>
        simp only [decodeAll, hb, hd] at hdec
        exact Option.noConfusion hdec
      | some dss =>
        simp only [decodeAll, hb, hd] at hdec
        obtain rfl : bs :: dss = ds := Option.some.inj hdec
        have hstep : appendAll path fs (f :: rest) =
            appendAll path (assocSet fs path (cur ++ bs)) rest := by
          simp only [appendAll, append_encoded, hget, hb]
        rw [hstep]
        rw [ih (assocSet fs path (cur ++ bs)) (cur ++ bs) dss
          (assocGet_assocSet fs path (cur ++ bs)) hd]
        simp [List.append_assoc]

/-- C3: write_encoded with an initial encoded payload followed by
append_encoded with fragments F1..Fk in call order yields final file
content equal to decode(initial) ++ decode(F1) ++ ... ++ decode(Fk). -/
theorem C3_write_then_appends (fs : EncFS) (path : String) (init : String)
    (frs : List String) (d0 : Bytes) (ds : List Bytes)
    (h1 : b64decode init = some d0) (h2 : decodeAll frs = some ds) :
    ((write_encoded fs path init).bind (fun f1 => appendAll path f1 frs)).bind
      (fun f => assocGet f path) = some (d0 ++ ds.flatten) := by
  rw [show write_encoded fs path init = some (assocSet fs path d0) from by
    unfold write_encoded; rw [h1]; rfl]
  exact appendAll_content path frs (assocSet fs path d0) d0 ds
    (assocGet_assocSet fs path d0) h2

theorem C3_witness :
    b64decode "aGk=" = some [104, 105] ∧
    decodeAll ["IQ==", "Pw=="] = some [[33], [63]] ∧
    ((write_encoded [] "a.txt" "aGk=").bind (fun f1 => appendAll "a.txt" f1 ["IQ==", "Pw=="])).bind
      (fun f => assocGet f "a.txt") = some [104, 105, 33, 63] :=
  ⟨by decide, by decide,
   C3_write_then_appends [] "a.txt" "aGk=" ["IQ==", "Pw=="] [104, 105] [[33], [63]]
     (by decide) (by decide)⟩

end TCA
